import Mathlib

/-!
Verification of the `TaskSplitter` orchestrator (`src/agents/task_splitter.py`)
against its natural-language specification.

The Python source is shallowly embedded:
* dataclasses become structures; `float` time and score values become `Rat`
  (exact rationals; every numeric comparison in the source is on values that
  are exactly representable, e.g. `0.7`, `score_total / 100.0`);
* the remote LLM calls (`_call_ai_api`) are the only source of
  non-determinism and of exceptions in the embedded fragments, so each
  embedded function takes the outcome of its remote call as an explicit
  `Except String _` argument; fallible Python code returns the same values
  the `try`/`except` blocks produce;
* `Dict[str, Any]` execution contexts are opaque to the verified logic and
  are modelled as `Option (List (String × String))`;
* Python's unbounded recursion in `_calculate_task_level` is modelled with an
  explicit fuel argument; fuel exhaustion (`none`) models non-termination.
-/

namespace TaskSplitter

/-- Levels of task complexity (`TaskComplexity` enum). -/
inductive TaskComplexity where
  | simple
  | moderate
  | complex
  | very_complex
deriving DecidableEq, Repr

/-- `TaskComplexity(value)`: the Python `Enum` constructor raises `ValueError`
on an unknown value, modelled by `none`. -/
def TaskComplexity.ofString? (s : String) : Option TaskComplexity :=
  if s = "simple" then some .simple
  else if s = "moderate" then some .moderate
  else if s = "complex" then some .complex
  else if s = "very_complex" then some .very_complex
  else none

/-- AI providers (`AIProvider` enum). -/
inductive AIProvider where
  | claude
  | gpt
  | auto
deriving DecidableEq, Repr

/-- Execution context: `Dict[str, Any]`, opaque to the verified logic,
modelled as an optional string-keyed map. -/
abbrev Ctx := Option (List (String × String))

/-- The `SubTask` dataclass. -/
structure SubTask where
  id : String
  title : String
  description : String
  estimated_lines : Int
  dependencies : List String
  priority : Int
  context : Ctx := none
  status : String := "pending"
  result : Option String := none
  execution_time : Option Rat := none
  provider_used : Option String := none
  error : Option String := none
deriving DecidableEq, Repr

/-- The `TaskAnalysis` dataclass. -/
structure TaskAnalysis where
  complexity : TaskComplexity
  estimated_total_lines : Int
  requires_splitting : Bool
  subtasks : List SubTask
  execution_strategy : String
  estimated_duration : Int
deriving DecidableEq, Repr

/-- One entry of the `subtask_results : List[Dict[str, Any]]` lists built by
the execution engine: the keys actually written by `_execute_subtask` and the
engine error paths. Absent keys are `none`. -/
structure SubtaskResultRec where
  subtask_id : String
  success : Bool
  result : Option String := none
  error : Option String := none
  execution_time : Rat := 0
  provider_used : Option String := none
  lines_count : Option Int := none
deriving DecidableEq, Repr

/-- The heterogeneous `metadata` dict of an `ExecutionResult`: the normal
completion path writes `analysis`/`execution_strategy`/`subtasks_count`/
`timestamp`, the top-level failure path writes `error`/`timestamp`. -/
inductive Metadata where
  | normal (analysis : TaskAnalysis) (execution_strategy : String)
      (subtasks_count : Nat) (timestamp : String)
  | failure (error : String) (timestamp : String)
deriving DecidableEq, Repr

/-- The `ExecutionResult` dataclass. -/
structure ExecutionResult where
  success : Bool
  final_result : Option String
  subtask_results : List SubtaskResultRec
  total_execution_time : Rat
  validation_score : Rat
  errors : List String
  metadata : Metadata
deriving DecidableEq, Repr

/-- The `execution_stats` ledger initialised in `__init__`. -/
structure ExecutionStats where
  tasks_processed : Nat
  subtasks_created : Nat
  successful_executions : Nat
  failed_executions : Nat
  total_execution_time : Rat
deriving DecidableEq, Repr

/-- The ledger's initial value (all counters zero). -/
def initExecutionStats : ExecutionStats :=
  { tasks_processed := 0
    subtasks_created := 0
    successful_executions := 0
    failed_executions := 0
    total_execution_time := 0 }

/-- Python `str.strip()`: remove leading and trailing whitespace. -/
def pyStrip (s : String) : String :=
  ⟨((s.toList.dropWhile Char.isWhitespace).reverse.dropWhile
      Char.isWhitespace).reverse⟩

/-- The parsed shape of one entry of the analyzer response's `"subtasks"`
array.  `title`, `description` and `estimated_lines` are accessed with
`[...]` (a missing key raises, which is part of the `Except.error` case of
the whole response); `dependencies` and `priority` are accessed with
`.get(..., default)`, modelled as `Option`. -/
structure SubTaskData where
  title : String
  description : String
  estimated_lines : Int
  dependencies : Option (List String) := none
  priority : Option Int := none
deriving DecidableEq, Repr

/-- The parsed shape of the analyzer's JSON response
(`analysis_data` in `analyze_task_complexity`).  A transport failure, a
`json.loads` failure or a missing required key are all modelled by the
surrounding `Except.error`; `subtasks`, `execution_strategy` and
`estimated_duration` are read with `.get(..., default)`. -/
structure AnalysisData where
  complexity : String
  estimated_total_lines : Int
  requires_splitting : Bool
  subtasks : Option (List SubTaskData) := none
  execution_strategy : Option String := none
  estimated_duration : Option Int := none
deriving DecidableEq, Repr

/-- `_create_fallback_analysis`. -/
def create_fallback_analysis (task_description : String) (context : Ctx) :
    TaskAnalysis :=
  { complexity := .moderate
    estimated_total_lines := 300
    requires_splitting := false
    subtasks := [
      { id := "fallback_task"
        title := "Tâche à traiter"
        description := task_description
        estimated_lines := 300
        dependencies := []
        priority := 1
        context := context }]
    execution_strategy := "séquentiel"
    estimated_duration := 30 }

/-- The sub-task list built from the proposed `"subtasks"` array
(the `for i, subtask_data in enumerate(...)` loop). -/
def buildSubtasks (context : Ctx) (l : List SubTaskData) : List SubTask :=
  (l.enum).map fun p =>
    { id := "subtask_" ++ toString (p.1 + 1)
      title := p.2.title
      description := p.2.description
      estimated_lines := p.2.estimated_lines
      dependencies := p.2.dependencies.getD []
      priority := p.2.priority.getD 5
      context := context }

/-- `analyze_task_complexity`.  `resp` is the outcome of the remote call
followed by `json.loads` and required-key access; any exception inside the
`try` (including an invalid complexity enum value) lands in the fallback. -/
def analyze_task_complexity (task_description : String) (context : Ctx)
    (resp : Except String AnalysisData) : TaskAnalysis :=
  match resp with
  | .error _ => create_fallback_analysis task_description context
  | .ok d =>
    match TaskComplexity.ofString? d.complexity with
    | none => create_fallback_analysis task_description context
    | some complexity =>
      let subtasks := buildSubtasks context (d.subtasks.getD [])
      let subtasks :=
        if !d.requires_splitting && subtasks.isEmpty then
          [{ id := "main_task"
             title := "Tâche principale"
             description := task_description
             estimated_lines := d.estimated_total_lines
             dependencies := []
             priority := 1
             context := context }]
        else subtasks
      { complexity := complexity
        estimated_total_lines := d.estimated_total_lines
        requires_splitting := d.requires_splitting
        subtasks := subtasks
        execution_strategy := d.execution_strategy.getD "séquentiel"
        estimated_duration := d.estimated_duration.getD 30 }

/-- The literal returned by `_assemble_results` when no sub-task succeeded. -/
def noSuccessMarker : String := "ERREUR: Aucune sous-tâche n\x27a réussi"

/-- `_assemble_results`.  `resp` is the outcome of the remote assembly call;
its failure is caught and replaced by naive concatenation. -/
def assemble_results (subtask_results : List SubtaskResultRec)
    (_original_task : String) (_context : Ctx)
    (resp : Except String String) : String :=
  let successful_results := subtask_results.filter (·.success)
  if successful_results.isEmpty then noSuccessMarker
  else
    match resp with
    | .ok final_result => final_result
    | .error _ =>
      String.intercalate "\n\n"
        (successful_results.map (fun r => r.result.getD ""))

/-- Python's builtin `min` on two rationals (returns the first argument on
ties, like `min(a, b)`). -/
def pyMin (a b : Rat) : Rat := if b < a then b else a

/-- Python's builtin `max` on two rationals (returns the first argument on
ties, like `max(a, b)`). -/
def pyMax (a b : Rat) : Rat := if a < b then b else a

/-- `_validate_coherence`.  `resp` is the outcome of the remote scoring call
followed by `json.loads` and `.get("score_total", 0)`; its failure is caught
and replaced by the heuristic fallback. -/
def validate_coherence (final_result : String) (_original_task : String)
    (subtask_results : List SubtaskResultRec)
    (resp : Except String Rat) : Rat :=
  match resp with
  | .ok score_total => pyMax 0 (pyMin 1 (score_total / 100))
  | .error _ =>
    if final_result = "" || (pyStrip final_result).length < 50 then 0.2
    else
      let successful_subtasks := (subtask_results.filter (·.success)).length
      let total_subtasks := subtask_results.length
      if total_subtasks = 0 then 0.5
      else pyMin 0.8 ((successful_subtasks : Rat) / (total_subtasks : Rat))

/-- `_validate_subtask_result`.  `result` is `Option String` because
`result_text` stays `None` when the retry loop never ran.  The size check
against `[0.5×, 2×]` of `estimated_lines` only logs a warning and is omitted
(it does not affect the return value). -/
def validate_subtask_result (_subtask : SubTask) (result : Option String) :
    Bool :=
  match result with
  | none => false
  | some s => if s = "" || (pyStrip s).length < 10 then false else true

/-- The sort key of `ready_tasks.sort(key=lambda t: t.priority)`:
comparison of priorities.  Python's sort is stable, and a stable sort by a
key is uniquely determined, so the (stable) insertion sort used below
produces exactly the same list. -/
def prioLE (a b : SubTask) : Prop := a.priority ≤ b.priority

instance : DecidableRel prioLE := fun a b =>
  inferInstanceAs (Decidable (a.priority ≤ b.priority))

instance : IsTotal SubTask prioLE := ⟨fun a b => Int.le_total a.priority b.priority⟩

instance : IsTrans SubTask prioLE := ⟨fun _ _ _ h h' => le_trans h h'⟩

/-- The ready test of `_sort_subtasks_by_dependencies`:
`all(dep in completed_ids for dep in task.dependencies)`. -/
def readyPred (completed_ids : List String) (t : SubTask) : Bool :=
  t.dependencies.all (fun d => completed_ids.contains d)

/-- One `while remaining_tasks:` loop of `_sort_subtasks_by_dependencies`,
with an explicit iteration budget (first argument).  Each iteration removes
at least one task from `remaining`, so a budget of `remaining.length`
iterations is exhaustive; the `0` case is reached only with `remaining = []`
when started with an adequate budget. -/
def sortStep : Nat → List SubTask → List String → List SubTask
  | 0, _, _ => []
  | _ + 1, [], _ => []
  | fuel + 1, r0 :: rest, completed_ids =>
    let remaining := r0 :: rest
    let ready_tasks := remaining.filter (readyPred completed_ids)
    -- circular dependencies detected: forcibly take the first remaining task
    let ready_tasks := if ready_tasks.isEmpty then [r0] else ready_tasks
    -- sort the ready subset by ascending priority (stable)
    let ready_tasks := List.insertionSort prioLE ready_tasks
    ready_tasks ++
      sortStep fuel
        (ready_tasks.foldl (fun rem t => rem.erase t) remaining)
        (completed_ids ++ ready_tasks.map SubTask.id)

/-- `_sort_subtasks_by_dependencies`. -/
def sort_subtasks_by_dependencies (subtasks : List SubTask) : List SubTask :=
  sortStep subtasks.length subtasks []

/-- The per-iteration blocks of the same loop: each block is one sorted
ready subset, in emission order.  `sortStep` is the concatenation of these
blocks (proved below). -/
def sortBlocks : Nat → List SubTask → List String → List (List SubTask)
  | 0, _, _ => []
  | _ + 1, [], _ => []
  | fuel + 1, r0 :: rest, completed_ids =>
    let remaining := r0 :: rest
    let ready_tasks := remaining.filter (readyPred completed_ids)
    let ready_tasks := if ready_tasks.isEmpty then [r0] else ready_tasks
    let ready_tasks := List.insertionSort prioLE ready_tasks
    ready_tasks ::
      sortBlocks fuel
        (ready_tasks.foldl (fun rem t => rem.erase t) remaining)
        (completed_ids ++ ready_tasks.map SubTask.id)

/-- Direct dependency between members of a batch: `a` depends on `b`. -/
def dependsOn (ts : List SubTask) (a b : SubTask) : Prop :=
  a ∈ ts ∧ b ∈ ts ∧ b.id ∈ a.dependencies

/-- The batch's dependency graph has no (directed) cycle: no task transitively
depends on itself. -/
def Acyclic (ts : List SubTask) : Prop :=
  ∀ t, ¬ Relation.TransGen (dependsOn ts) t t

/-- `next((t for t in all_tasks if t.id == dep_id), None)`. -/
def findTask (all_tasks : List SubTask) (dep_id : String) : Option SubTask :=
  all_tasks.find? (fun t => t.id = dep_id)

/-- The memoization dict `task_levels` of `_analyze_dependency_levels`,
as an association list (assignment is modelled by consing, lookup finds the
most recent binding). -/
abbrev LevelMemo := List (String × Int)

/-- The `for dep_id in task.dependencies:` loop of `_calculate_task_level`,
parameterized by the recursive call `f`:
accumulates `max_dep_level` and threads the memoization dict. -/
def calcDepsWith (f : SubTask → LevelMemo → Option (Int × LevelMemo))
    (all_tasks : List SubTask) :
    List String → Int → LevelMemo → Option (Int × LevelMemo)
  | [], acc, memo => some (acc, memo)
  | dep_id :: ds, acc, memo =>
    match findTask all_tasks dep_id with
    | none => calcDepsWith f all_tasks ds acc memo
    | some dep_task =>
      match f dep_task memo with
      | none => none
      | some (dep_level, memo') =>
        calcDepsWith f all_tasks ds (max acc dep_level) memo'

/-- `_calculate_task_level`, with an explicit recursion-depth budget
(Python recursion is unbounded; on a dependency cycle it never returns,
modelled by `none`).  A budget of `all_tasks.length + 1` is adequate for all
terminating runs, since a repeated task on the recursion stack means
non-termination. -/
def calc_task_level : Nat → List SubTask → SubTask → LevelMemo →
    Option (Int × LevelMemo)
  | 0, _, _, _ => none
  | fuel + 1, all_tasks, task, memo =>
    match memo.lookup task.id with
    | some level => some (level, memo)
    | none =>
      if task.dependencies.isEmpty then some (0, (task.id, 0) :: memo)
      else
        match calcDepsWith (fun t m => calc_task_level fuel all_tasks t m)
            all_tasks task.dependencies (-1) memo with
        | none => none
        | some (max_dep_level, memo') =>
          some (max_dep_level + 1, (task.id, max_dep_level + 1) :: memo')

/-- `levels[level].append(task)` on the insertion-ordered
`defaultdict(list)`. -/
def addLevel : List (Int × List SubTask) → Int → SubTask →
    List (Int × List SubTask)
  | [], level, task => [(level, [task])]
  | (k, v) :: rest, level, task =>
    if k = level then (k, v ++ [task]) :: rest
    else (k, v) :: addLevel rest level task

/-- The `for task in subtasks:` loop of `_analyze_dependency_levels`,
threading the shared `task_levels` dict. -/
def levelsLoop (all_tasks : List SubTask) :
    List SubTask → List (Int × List SubTask) → LevelMemo →
    Option (List (Int × List SubTask) × LevelMemo)
  | [], levels, memo => some (levels, memo)
  | task :: ts, levels, memo =>
    match calc_task_level (all_tasks.length + 1) all_tasks task memo with
    | none => none
    | some (level, memo') =>
      levelsLoop all_tasks ts (addLevel levels level task)
        ((task.id, level) :: memo')

/-- `_analyze_dependency_levels`: the level-indexed partition and the final
`task_levels` map.  `none` models the infinite recursion a dependency cycle
causes in the source. -/
def analyze_dependency_levels (subtasks : List SubTask) :
    Option (List (Int × List SubTask) × LevelMemo) :=
  levelsLoop subtasks subtasks [] []

/-- The error list built at step 5 of `execute_task`:
`[r.get("error", "") for r in subtask_results if r.get("error")]`
(an absent or empty `error` is falsy). -/
def collectErrors (subtask_results : List SubtaskResultRec) : List String :=
  subtask_results.filterMap fun r =>
    match r.error with
    | some s => if s = "" then none else some s
    | none => none

/-- `execute_task`.  The remote-dependent layers are passed as explicit
outcomes: `analysisResp` feeds `analyze_task_complexity` (which never fails),
`engine` is the outcome of the strategy dispatch
(`_execute_sequential` / `_execute_parallel` / `_execute_hybrid`) — the one
layer whose failure escapes to the top-level `except` —, `assembleResp` and
`validateResp` feed `_assemble_results` and `_validate_coherence` (which
catch their own failures).  `execution_time` is the measured wall-clock time
and `timestamp` the formatted current time; `_save_execution_result`
swallows its own errors and does not affect the returned value.  Returns the
`ExecutionResult` together with the updated statistics ledger. -/
def execute_task (task_description : String) (context : Ctx)
    (analysisResp : Except String AnalysisData)
    (engine : Except String (List SubtaskResultRec))
    (assembleResp : Except String String)
    (validateResp : Except String Rat)
    (execution_time : Rat) (timestamp : String)
    (stats : ExecutionStats) : ExecutionResult × ExecutionStats :=
  let analysis := analyze_task_complexity task_description context analysisResp
  match engine with
  | .error e =>
    ({ success := false
       final_result := none
       subtask_results := []
       total_execution_time := execution_time
       validation_score := 0
       errors := [e]
       metadata := .failure e timestamp },
     { stats with failed_executions := stats.failed_executions + 1 })
  | .ok subtask_results =>
    let final_result :=
      assemble_results subtask_results task_description context assembleResp
    let validation_score :=
      validate_coherence final_result task_description subtask_results
        validateResp
    let result : ExecutionResult :=
      { success := decide ((0.7 : Rat) ≤ validation_score)
        final_result := some final_result
        subtask_results := subtask_results
        total_execution_time := execution_time
        validation_score := validation_score
        errors := collectErrors subtask_results
        metadata := .normal analysis analysis.execution_strategy
          analysis.subtasks.length timestamp }
    let stats := { stats with
      tasks_processed := stats.tasks_processed + 1
      subtasks_created := stats.subtasks_created + analysis.subtasks.length
      total_execution_time := stats.total_execution_time + execution_time }
    let stats :=
      if result.success then
        { stats with successful_executions := stats.successful_executions + 1 }
      else
        { stats with failed_executions := stats.failed_executions + 1 }
    (result, stats)

/-- The snapshot returned by `get_execution_stats`: the ledger plus the two
derived fields. -/
structure StatsReport where
  stats : ExecutionStats
  average_execution_time : Rat
  success_rate : Rat
deriving DecidableEq, Repr

/-- `get_execution_stats`. -/
def get_execution_stats (s : ExecutionStats) : StatsReport :=
  if s.tasks_processed > 0 then
    { stats := s
      average_execution_time :=
        s.total_execution_time / (s.tasks_processed : Rat)
      success_rate :=
        (s.successful_executions : Rat) / (s.tasks_processed : Rat) }
  else
    { stats := s
      average_execution_time := 0
      success_rate := 0 }

/-! Concrete inputs used by witnesses and counterexamples. -/

/-- A linear dependency chain: `chainB` depends on `chainA`,
`chainC` depends on `chainB`. -/
def chainA : SubTask :=
  { id := "A", title := "a", description := "a", estimated_lines := 10,
    dependencies := [], priority := 1 }

/-- Middle element of the linear chain. -/
def chainB : SubTask :=
  { id := "B", title := "b", description := "b", estimated_lines := 10,
    dependencies := ["A"], priority := 1 }

/-- Last element of the linear chain. -/
def chainC : SubTask :=
  { id := "C", title := "c", description := "c", estimated_lines := 10,
    dependencies := ["B"], priority := 1 }

/-- An analyzer response that claims splitting is required but proposes no
sub-tasks. -/
def splitNoSubtasksData : AnalysisData :=
  { complexity := "very_complex", estimated_total_lines := 800,
    requires_splitting := true, subtasks := some [] }

/-- An analyzer response that claims no splitting and proposes no
sub-tasks. -/
def noSplitNoSubtasksData : AnalysisData :=
  { complexity := "simple", estimated_total_lines := 50,
    requires_splitting := false }

/-- An analyzer response with an invalid complexity enum value. -/
def badComplexityData : AnalysisData :=
  { complexity := "invalide", estimated_total_lines := 100,
    requires_splitting := false }

/-- A string of 60 spaces: length 60, but empty once stripped. -/
def sixtySpaces : String := ⟨List.replicate 60 ' '⟩

/-- The value of the `max_dep_level` accumulator of `_calculate_task_level`
when every in-batch dependency is already memoized: the maximum of the
memoized levels of the dependencies found in the batch, starting from `-1`. -/
def maxInBatchDepLevel (ts : List SubTask) (memo : LevelMemo)
    (deps : List String) : Int :=
  deps.foldl
    (fun acc d =>
      match findTask ts d, memo.lookup d with
      | some _, some l => max acc l
      | _, _ => acc)
    (-1)

/-- First half of a two-cycle: `cycA` depends on `cycB`. -/
def cycA : SubTask :=
  { id := "A", title := "a", description := "a", estimated_lines := 10,
    dependencies := ["B"], priority := 1 }

/-- Second half of a two-cycle: `cycB` depends on `cycA`. -/
def cycB : SubTask :=
  { id := "B", title := "b", description := "b", estimated_lines := 10,
    dependencies := ["A"], priority := 1 }

/-- A string of 60 letters `x`: unchanged by stripping. -/
def sixtyXs : String := ⟨List.replicate 60 'x'⟩

/-- A successful sub-task result record. -/
def okRec : SubtaskResultRec :=
  { subtask_id := "subtask_1", success := true, result := some "resultat",
    execution_time := 1 }

/-- A failed sub-task result record. -/
def koRec : SubtaskResultRec :=
  { subtask_id := "subtask_2", success := false, error := some "echec",
    execution_time := 1 }

end TaskSplitter

namespace TaskSplitter

/-! ## Theorems -/

/-- **C1.** For every `ExecutionResult` returned by `execute_task`, the
`success` flag is true iff `validation_score ≥ 0.7`, on both the normal
completion path and the top-level failure path; in particular a validation
score of `0.7` yields `success = true` and a score of `0.699` yields
`success = false`. -/
theorem execute_task_success_iff_validation_score
    (task_description : String) (context : Ctx)
    (analysisResp : Except String AnalysisData)
    (engine : Except String (List SubtaskResultRec))
    (assembleResp : Except String String) (validateResp : Except String Rat)
    (execution_time : Rat) (timestamp : String) (stats : ExecutionStats) :
    ((execute_task task_description context analysisResp engine assembleResp
        validateResp execution_time timestamp stats).1.success = true ↔
      (0.7 : Rat) ≤ (execute_task task_description context analysisResp
        engine assembleResp validateResp execution_time timestamp
        stats).1.validation_score)
    ∧ ((execute_task "t" none (.error "down") (.ok [okRec]) (.ok "final")
        (.ok 70) 1 "now" initExecutionStats).1.validation_score = 0.7
      ∧ (execute_task "t" none (.error "down") (.ok [okRec]) (.ok "final")
        (.ok 70) 1 "now" initExecutionStats).1.success = true)
    ∧ ((execute_task "t" none (.error "down") (.ok [okRec]) (.ok "final")
        (.ok 69.9) 1 "now" initExecutionStats).1.validation_score = 0.699
      ∧ (execute_task "t" none (.error "down") (.ok [okRec]) (.ok "final")
        (.ok 69.9) 1 "now" initExecutionStats).1.success = false) := by
  refine ⟨?_, ⟨?_, ?_⟩, ⟨?_, ?_⟩⟩
  · cases engine with
    | error e =>
      simp only [execute_task]
      norm_num
    | ok rs =>
      simp only [execute_task, decide_eq_true_eq]
  · show pyMax 0 (pyMin 1 ((70 : Rat) / 100)) = 0.7
    norm_num [pyMax, pyMin]
  · show decide ((0.7 : Rat) ≤ pyMax 0 (pyMin 1 ((70 : Rat) / 100))) = true
    rw [decide_eq_true_eq]
    norm_num [pyMax, pyMin]
  · show pyMax 0 (pyMin 1 ((69.9 : Rat) / 100)) = 0.699
    norm_num [pyMax, pyMin]
  · show decide ((0.7 : Rat) ≤ pyMax 0 (pyMin 1 ((69.9 : Rat) / 100))) = false
    rw [decide_eq_false_iff_not]
    norm_num [pyMax, pyMin]

/-- **C2.** `execute_task` never propagates an exception: a failure escaping
the inner layers is caught at the boundary and converted into a well-formed
`ExecutionResult` with `success = false`, `validation_score = 0.0`, empty
`subtask_results`, and the exception message as the sole entry of the error
list. -/
theorem execute_task_top_level_failure
    (task_description : String) (context : Ctx)
    (analysisResp : Except String AnalysisData) (e : String)
    (assembleResp : Except String String) (validateResp : Except String Rat)
    (execution_time : Rat) (timestamp : String) (stats : ExecutionStats) :
    execute_task task_description context analysisResp (.error e)
        assembleResp validateResp execution_time timestamp stats =
      ({ success := false
         final_result := none
         subtask_results := []
         total_execution_time := execution_time
         validation_score := 0
         errors := [e]
         metadata := .failure e timestamp },
       { stats with failed_executions := stats.failed_executions + 1 }) := rfl

/-- **C10.** On the top-level exception path of `execute_task`, the only
ledger counter modified is `failed_executions` (incremented by 1);
`tasks_processed`, `subtasks_created`, `successful_executions` and
`total_execution_time` are unchanged, hence `failed_executions` can exceed
`tasks_processed` (witnessed from the initial ledger), and the derived
`average_execution_time` and `success_rate` are unchanged — they exclude the
failed run from their denominator. -/
theorem execute_task_failure_ledger_frame
    (task_description : String) (context : Ctx)
    (analysisResp : Except String AnalysisData) (e : String)
    (assembleResp : Except String String) (validateResp : Except String Rat)
    (execution_time : Rat) (timestamp : String) (stats : ExecutionStats) :
    ((execute_task task_description context analysisResp (.error e)
        assembleResp validateResp execution_time timestamp
        stats).2.failed_executions = stats.failed_executions + 1
    ∧ (execute_task task_description context analysisResp (.error e)
        assembleResp validateResp execution_time timestamp
        stats).2.tasks_processed = stats.tasks_processed
    ∧ (execute_task task_description context analysisResp (.error e)
        assembleResp validateResp execution_time timestamp
        stats).2.subtasks_created = stats.subtasks_created
    ∧ (execute_task task_description context analysisResp (.error e)
        assembleResp validateResp execution_time timestamp
        stats).2.successful_executions = stats.successful_executions
    ∧ (execute_task task_description context analysisResp (.error e)
        assembleResp validateResp execution_time timestamp
        stats).2.total_execution_time = stats.total_execution_time)
    ∧ (get_execution_stats (execute_task task_description context
        analysisResp (.error e) assembleResp validateResp execution_time
        timestamp stats).2).average_execution_time =
      (get_execution_stats stats).average_execution_time
    ∧ (get_execution_stats (execute_task task_description context
        analysisResp (.error e) assembleResp validateResp execution_time
        timestamp stats).2).success_rate =
      (get_execution_stats stats).success_rate
    ∧ (execute_task "t" none (.error "a") (.error "b") (.error "c")
        (.error "d") 1 "now" initExecutionStats).2.tasks_processed <
      (execute_task "t" none (.error "a") (.error "b") (.error "c")
        (.error "d") 1 "now" initExecutionStats).2.failed_executions := by
  refine ⟨⟨rfl, rfl, rfl, rfl, rfl⟩, ?_, ?_, by decide⟩
  · by_cases h : stats.tasks_processed > 0 <;>
      simp [execute_task, get_execution_stats, h]
  · by_cases h : stats.tasks_processed > 0 <;>
      simp [execute_task, get_execution_stats, h]

/-- **C5, counterexample.** `analyze_task_complexity` can return a
`TaskAnalysis` whose `subtasks` collection is empty: it suffices that the
remote analysis sets `requires_splitting` and proposes no sub-tasks — the
synthetic single task is only created when `requires_splitting` is false. -/
theorem analyze_task_complexity_empty_subtasks :
    (analyze_task_complexity "une tache" none
        (.ok splitNoSubtasksData)).subtasks = [] := rfl

/-- **C5, amended.** If the analysis outcome does not set
`requires_splitting` (in particular on the fallback path), the `subtasks`
collection is non-empty; and when the remote analysis set
`requires_splitting` to false and proposed no sub-tasks, it is exactly one
synthetic `SubTask` wrapping the whole task description. -/
theorem analyze_task_complexity_subtasks_nonempty
    (task_description : String) (context : Ctx)
    (resp : Except String AnalysisData)
    (h : ∀ d, resp = .ok d → d.requires_splitting = false) :
    (analyze_task_complexity task_description context resp).subtasks ≠ []
    ∧ (∀ d, resp = .ok d →
        (TaskComplexity.ofString? d.complexity).isSome →
        d.subtasks.getD [] = [] →
        (analyze_task_complexity task_description context resp).subtasks =
          [{ id := "main_task"
             title := "Tâche principale"
             description := task_description
             estimated_lines := d.estimated_total_lines
             dependencies := []
             priority := 1
             context := context }]) := by
  constructor
  · cases resp with
    | error e => simp [analyze_task_complexity, create_fallback_analysis]
    | ok d =>
      have hd := h d rfl
      simp only [analyze_task_complexity]
      cases hc : TaskComplexity.ofString? d.complexity with
      | none => simp [create_fallback_analysis]
      | some cx =>
        simp only [hd, Bool.not_false, Bool.true_and]
        by_cases he : (buildSubtasks context (d.subtasks.getD [])).isEmpty = true
        · rw [if_pos he]
          simp
        · rw [if_neg he]
          intro hnil
          rw [hnil] at he
          simp at he
  · intro d hresp hsome hempty
    subst hresp
    have hd := h d rfl
    simp only [analyze_task_complexity]
    cases hc : TaskComplexity.ofString? d.complexity with
    | none => rw [hc] at hsome; simp at hsome
    | some cx => simp [hd, hempty, buildSubtasks]

/-- **C5, amended, witness.** The amended statement at a concrete
no-splitting, no-subtasks response. -/
theorem analyze_task_complexity_subtasks_nonempty_witness :
    (analyze_task_complexity "une tache" none
        (.ok noSplitNoSubtasksData)).subtasks ≠ []
    ∧ (analyze_task_complexity "une tache" none
        (.ok noSplitNoSubtasksData)).subtasks =
      [{ id := "main_task"
         title := "Tâche principale"
         description := "une tache"
         estimated_lines := 50
         dependencies := []
         priority := 1
         context := none }] :=
  ⟨(analyze_task_complexity_subtasks_nonempty "une tache" none
      (.ok noSplitNoSubtasksData) (by intro d hd; cases hd; rfl)).1,
   (analyze_task_complexity_subtasks_nonempty "une tache" none
      (.ok noSplitNoSubtasksData) (by intro d hd; cases hd; rfl)).2
     noSplitNoSubtasksData rfl (by decide) (by decide)⟩

/-- **C6.** `analyze_task_complexity` never raises: on a remote/parse failure
or an invalid complexity enum value it returns the deterministic fallback
analysis — complexity `moderate`, `requires_splitting = false`, exactly one
`SubTask` whose description is the whole task description (titled
"Tâche à traiter", the spec's "fallback label"), execution strategy
"séquentiel" (the source's literal for the sequential strategy),
`estimated_total_lines = 300` and a 30-minute duration estimate. -/
theorem analyze_task_complexity_fallback (task_description : String)
    (context : Ctx) :
    (∀ e, analyze_task_complexity task_description context (.error e) =
      create_fallback_analysis task_description context)
    ∧ (∀ d, TaskComplexity.ofString? d.complexity = none →
        analyze_task_complexity task_description context (.ok d) =
          create_fallback_analysis task_description context)
    ∧ create_fallback_analysis task_description context =
      { complexity := .moderate
        estimated_total_lines := 300
        requires_splitting := false
        subtasks := [{ id := "fallback_task"
                       title := "Tâche à traiter"
                       description := task_description
                       estimated_lines := 300
                       dependencies := []
                       priority := 1
                       context := context }]
        execution_strategy := "séquentiel"
        estimated_duration := 30 } := by
  refine ⟨fun e => rfl, fun d hd => ?_, rfl⟩
  simp [analyze_task_complexity, hd]

/-- `pyMin` coincides with the lattice minimum. -/
theorem pyMin_eq_min (a b : Rat) : pyMin a b = min a b := by
  unfold pyMin
  rcases lt_or_le b a with h | h
  · rw [if_pos h, min_eq_right h.le]
  · rw [if_neg (not_lt.mpr h), min_eq_left h]

/-- `pyMax` coincides with the lattice maximum. -/
theorem pyMax_eq_max (a b : Rat) : pyMax a b = max a b := by
  unfold pyMax
  rcases lt_or_le a b with h | h
  · rw [if_pos h, max_eq_right h.le]
  · rw [if_neg (not_lt.mpr h), max_eq_left h]

/-- **C8, counterexample.** A final result of 60 spaces is not "empty or
shorter than 50 characters" (its length is 60), and there is one successful
sub-task result out of one, yet the fallback score is `0.2`, not
`min(0.8, 1/1)`: the source tests the length of the *stripped* string. -/
theorem validate_coherence_counterexample :
    sixtySpaces.length = 60
    ∧ validate_coherence sixtySpaces "une tache" [okRec] (.error "panne") =
        0.2
    ∧ (0.2 : Rat) ≠ min 0.8 ((1 : Rat) / 1) := by
  refine ⟨by decide, rfl, by norm_num⟩

/-- **C8, amended.** `_assemble_results` given sub-task results none of which
succeeded returns the literal no-success marker, independently of the remote
call's outcome (so no remote call is needed); and `_validate_coherence`
always returns a score in `[0, 1]`, where on remote failure the fallback
yields `0.2` when the final result is empty *after stripping surrounding
whitespace* or shorter than 50 characters so stripped, `0.5` when there were
zero sub-task results, and `min(0.8, successful/total)` otherwise. -/
theorem validate_coherence_spec :
    (∀ (rs : List SubtaskResultRec) (task : String) (ctx : Ctx)
        (resp : Except String String), (∀ r ∈ rs, r.success = false) →
        assemble_results rs task ctx resp = noSuccessMarker)
    ∧ (∀ (final task : String) (rs : List SubtaskResultRec)
        (resp : Except String Rat),
        0 ≤ validate_coherence final task rs resp
        ∧ validate_coherence final task rs resp ≤ 1)
    ∧ (∀ (final task : String) (rs : List SubtaskResultRec) (e : String),
        (final = "" ∨ (pyStrip final).length < 50) →
        validate_coherence final task rs (.error e) = 0.2)
    ∧ (∀ (final task e : String), ¬final = "" →
        ¬(pyStrip final).length < 50 →
        validate_coherence final task [] (.error e) = 0.5)
    ∧ (∀ (final task : String) (rs : List SubtaskResultRec) (e : String),
        ¬final = "" → ¬(pyStrip final).length < 50 → ¬rs = [] →
        validate_coherence final task rs (.error e) =
          min 0.8 (((rs.filter (·.success)).length : Rat) /
            (rs.length : Rat))) := by
  refine ⟨?_, ?_, ?_, ?_, ?_⟩
  · intro rs task ctx resp h
    have hf : rs.filter (·.success) = [] := by
      rw [List.filter_eq_nil_iff]
      intro a ha
      simp [h a ha]
    simp [assemble_results, hf]
  · intro final task rs resp
    cases resp with
    | ok q =>
      simp only [validate_coherence, pyMax_eq_max, pyMin_eq_min]
      exact ⟨le_max_left 0 _, max_le (by norm_num) (min_le_left _ _)⟩
    | error e =>
      simp only [validate_coherence, pyMin_eq_min]
      split_ifs with h1 h2
      · norm_num
      · norm_num
      · constructor
        · exact le_min (by norm_num)
            (div_nonneg (Nat.cast_nonneg _) (Nat.cast_nonneg _))
        · exact (min_le_left _ _).trans (by norm_num)
  · intro final task rs e h
    rcases h with h | h <;> simp [validate_coherence, h]
  · intro final task e h1 h2
    simp [validate_coherence, h1, h2]
  · intro final task rs e h1 h2 h3
    have hlen : ¬rs.length = 0 := by
      simpa [List.length_eq_zero] using h3
    simp [validate_coherence, h1, h2, hlen, pyMin_eq_min]

/-- **C8, amended, witness.** The amended statement at concrete inputs. -/
theorem validate_coherence_spec_witness :
    assemble_results [koRec] "t" none (.ok "ignoré") = noSuccessMarker
    ∧ validate_coherence "" "t" [okRec] (.error "panne") = 0.2
    ∧ validate_coherence sixtyXs "t" [] (.error "panne") = 0.5
    ∧ validate_coherence sixtyXs "t" [okRec, koRec] (.error "panne") =
        min 0.8 ((1 : Rat) / 2) := by
  refine ⟨validate_coherence_spec.1 [koRec] "t" none (.ok "ignoré")
      (by decide), ?_, ?_, ?_⟩
  · exact validate_coherence_spec.2.2.1 "" "t" [okRec] "panne" (Or.inl rfl)
  · exact validate_coherence_spec.2.2.2.1 sixtyXs "t" "panne" (by decide)
      (by decide)
  · rw [validate_coherence_spec.2.2.2.2 sixtyXs "t" [okRec, koRec] "panne"
      (by decide) (by decide) (by decide)]
    norm_num [okRec, koRec]

/-- **C9, counterexample.** The text `"a b c d e f"` has only 6
non-whitespace characters (fewer than 10), yet `_validate_subtask_result`
judges it valid: the source tests `len(result.strip())`, which counts inner
whitespace. -/
theorem validate_subtask_result_counterexample :
    validate_subtask_result chainA (some "a b c d e f") = true
    ∧ ("a b c d e f".toList.filter (fun c => !c.isWhitespace)).length
        < 10 := by
  exact ⟨rfl, by decide⟩

/-- **C9, amended.** `_validate_subtask_result` judges a result valid exactly
when it is a present text whose length after stripping leading and trailing
whitespace is at least 10; in particular any such text is valid regardless of
its line count relative to the estimated size. -/
theorem validate_subtask_result_iff (st : SubTask) (result : Option String) :
    validate_subtask_result st result = true ↔
      ∃ s, result = some s ∧ 10 ≤ (pyStrip s).length := by
  cases result with
  | none => simp [validate_subtask_result]
  | some s =>
    by_cases h1 : s = ""
    · subst h1
      have h0 : (pyStrip "").length = 0 := rfl
      simp [validate_subtask_result, h0]
    · by_cases h2 : (pyStrip s).length < 10
      · simp [validate_subtask_result, h1, h2]
      · simp [validate_subtask_result, h1, h2]
        omega

/-- **C6, witness.** The fallback theorem applied to a concrete response
with an invalid complexity value. -/
theorem analyze_task_complexity_fallback_witness :
    TaskComplexity.ofString? badComplexityData.complexity = none
    ∧ analyze_task_complexity "tache triviale" none (.ok badComplexityData) =
      create_fallback_analysis "tache triviale" none :=
  ⟨by decide,
   (analyze_task_complexity_fallback "tache triviale" none).2.1
     badComplexityData (by decide)⟩

/-! ### Scheduler lemmas -/

/-- Erasing a list of elements from `l` yields a sublist of `l`. -/
theorem foldl_erase_sublist (s l : List SubTask) :
    List.Sublist (s.foldl (fun rem t => rem.erase t) l) l := by
  induction s generalizing l with
  | nil => exact List.Sublist.refl l
  | cons a s ih =>
    exact (ih (l.erase a)).trans (List.erase_sublist a l)

/-- Erasing elements that are all different from `a` never removes a leading
`a`. -/
theorem foldl_erase_cons_of_ne (s : List SubTask) (a : SubTask)
    (h : ∀ x ∈ s, x ≠ a) (l : List SubTask) :
    s.foldl (fun rem t => rem.erase t) (a :: l) =
      a :: s.foldl (fun rem t => rem.erase t) l := by
  induction s generalizing l with
  | nil => rfl
  | cons x s ih =>
    have hxa : ¬(a == x) = true := by
      simp only [beq_iff_eq]
      exact fun hax => (h x (by simp)) (hax ▸ rfl)
    simp only [List.foldl_cons, List.erase_cons_tail hxa]
    exact ih (fun y hy => h y (by simp [hy])) (l.erase x)

/-- Erasing the elements of a permutation of `s` is the same as erasing the
elements of `s`. -/
theorem foldl_erase_perm {s s' : List SubTask} (h : s.Perm s')
    (l : List SubTask) :
    s.foldl (fun rem t => rem.erase t) l =
      s'.foldl (fun rem t => rem.erase t) l := by
  induction h generalizing l with
  | nil => rfl
  | cons x _ ih => simp only [List.foldl_cons]; exact ih (l.erase x)
  | swap x y => simp only [List.foldl_cons, List.erase_comm]
  | trans _ _ ih1 ih2 => exact (ih1 l).trans (ih2 l)

/-- Erasing the elements that satisfy `p` from `l` leaves exactly the
elements that do not. -/
theorem foldl_erase_filter (p : SubTask → Bool) (l : List SubTask) :
    (l.filter p).foldl (fun rem t => rem.erase t) l =
      l.filter (fun a => !p a) := by
  induction l with
  | nil => rfl
  | cons a t ih =>
    by_cases pa : p a = true
    · simp only [List.filter_cons, pa, if_pos, List.foldl_cons,
        List.erase_cons_head, Bool.not_true, ih]
      simp [List.filter_cons, pa]
    · have pa' : p a = false := by simpa using pa
      have hne : ∀ x ∈ t.filter p, x ≠ a := by
        intro x hx hxa
        have := List.of_mem_filter hx
        rw [hxa, pa'] at this
        exact Bool.false_ne_true this
      simp only [List.filter_cons, pa', Bool.false_eq_true, if_neg,
        not_false_iff]
      rw [foldl_erase_cons_of_ne _ _ hne, ih]
      simp [List.filter_cons, pa']

/-- The step removal: erasing a sorted permutation of the ready subset
leaves exactly the non-ready tasks. -/
theorem foldl_erase_sorted_filter (p : SubTask → Bool) (l : List SubTask) :
    (List.insertionSort prioLE (l.filter p)).foldl
        (fun rem t => rem.erase t) l = l.filter (fun a => !p a) := by
  rw [foldl_erase_perm (List.perm_insertionSort prioLE (l.filter p)) l]
  exact foldl_erase_filter p l

/-- With an adequate iteration budget, the scheduler's output is a
permutation of its input. -/
theorem sortStep_perm :
    ∀ (fuel : Nat) (rem : List SubTask) (completed : List String),
      rem.length ≤ fuel → (sortStep fuel rem completed).Perm rem := by
  intro fuel
  induction fuel with
  | zero =>
    intro rem completed hlen
    rw [Nat.le_zero, List.length_eq_zero] at hlen
    subst hlen
    exact List.Perm.refl _
  | succ fuel ih =>
    intro rem completed hlen
    cases rem with
    | nil => exact List.Perm.refl _
    | cons r0 rest =>
      simp only [sortStep]
      by_cases hF : ((r0 :: rest).filter (readyPred completed)).isEmpty = true
      · rw [if_pos hF]
        have hsort : List.insertionSort prioLE [r0] = [r0] := rfl
        rw [hsort]
        simp only [List.foldl_cons, List.foldl_nil, List.erase_cons_head,
          List.singleton_append]
        exact ((ih rest _ (Nat.le_of_succ_le_succ hlen)).cons r0)
      · rw [if_neg hF]
        have hrem :
            (List.insertionSort prioLE
                ((r0 :: rest).filter (readyPred completed))).foldl
                (fun rem t => rem.erase t) (r0 :: rest) =
              (r0 :: rest).filter (fun a => !readyPred completed a) :=
          foldl_erase_sorted_filter (readyPred completed) (r0 :: rest)
        rw [hrem]
        have hlen2 :
            ((r0 :: rest).filter (fun a => !readyPred completed a)).length ≤
              fuel := by
          have hfull :
              ((r0 :: rest).filter (readyPred completed)).length +
                ((r0 :: rest).filter
                  (fun a => !readyPred completed a)).length =
                (r0 :: rest).length := by
            have := (List.filter_append_perm (readyPred completed)
              (r0 :: rest)).length_eq
            simpa [List.length_append] using this
          have hpos :
              0 < ((r0 :: rest).filter (readyPred completed)).length := by
            cases hFe : (r0 :: rest).filter (readyPred completed) with
            | nil => rw [hFe] at hF; simp at hF
            | cons x xs => simp [hFe]
          have hlen' : (r0 :: rest).length ≤ fuel + 1 := hlen
          simp only [List.length_cons] at hlen'
          omega
        exact ((List.perm_insertionSort prioLE _).append
            (ih _ _ hlen2)).trans
          (List.filter_append_perm (readyPred completed) (r0 :: rest))

/-- The blocks join to the scheduler's output. -/
theorem sortBlocks_join :
    ∀ (fuel : Nat) (rem : List SubTask) (completed : List String),
      (sortBlocks fuel rem completed).flatten =
        sortStep fuel rem completed := by
  intro fuel
  induction fuel with
  | zero => intro rem completed; rfl
  | succ fuel ih =>
    intro rem completed
    cases rem with
    | nil => rfl
    | cons r0 rest =>
      simp only [sortBlocks, sortStep, List.flatten_cons]
      rw [ih]

/-- Every emitted block is sorted by ascending priority. -/
theorem sortBlocks_sorted :
    ∀ (fuel : Nat) (rem : List SubTask) (completed : List String),
      ∀ b ∈ sortBlocks fuel rem completed, b.Pairwise prioLE := by
  intro fuel
  induction fuel with
  | zero => intro rem completed b hb; simp [sortBlocks] at hb
  | succ fuel ih =>
    intro rem completed b hb
    cases rem with
    | nil => simp [sortBlocks] at hb
    | cons r0 rest =>
      simp only [sortBlocks, List.mem_cons] at hb
      rcases hb with hb | hb
      · subst hb
        exact List.sorted_insertionSort prioLE _
      · exact ih _ _ b hb

/-- A ranking argument: if some rank function strictly decreases along
dependency edges, the batch's dependency graph is acyclic. -/
theorem acyclic_of_rank (ts : List SubTask) (f : String → Nat)
    (h : ∀ a b, dependsOn ts a b → f b.id < f a.id) : Acyclic ts := by
  intro t ht
  have key : ∀ x y, Relation.TransGen (dependsOn ts) x y →
      f y.id < f x.id := by
    intro x y hxy
    induction hxy with
    | single h1 => exact h _ _ h1
    | tail _ h1 ih => exact lt_trans (h _ _ h1) ih
  exact lt_irrefl _ (key t t ht)

/-- In a finite nonempty set in which every element has an `r`-successor
inside the set, `r` has a cycle (pigeonhole on an infinite `r`-chain). -/
theorem exists_cycle_of_forall_succ {α : Type} [DecidableEq α]
    (r : α → α → Prop) (S : List α) (hne : S ≠ [])
    (hsucc : ∀ t ∈ S, ∃ u, u ∈ S ∧ r t u) :
    ∃ t, Relation.TransGen r t t := by
  classical
  let g : Nat → {x // x ∈ S} := fun n =>
    Nat.rec ⟨S.head hne, List.head_mem hne⟩
      (fun _ prev =>
        ⟨(hsucc prev.1 prev.2).choose,
         (hsucc prev.1 prev.2).choose_spec.1⟩) n
  have hstep : ∀ n, r (g n).1 (g (n + 1)).1 := fun n =>
    (hsucc (g n).1 (g n).2).choose_spec.2
  have hmono : ∀ i j, i < j → Relation.TransGen r (g i).1 (g j).1 := by
    intro i j hij
    induction j, hij using Nat.le_induction with
    | base => exact Relation.TransGen.single (hstep i)
    | succ j _ ih => exact ih.tail (hstep j)
  have hc : S.toFinset.card <
      (Finset.univ : Finset (Fin (S.length + 1))).card := by
    have h1 : S.toFinset.card ≤ S.length := List.toFinset_card_le S
    rw [Finset.card_univ, Fintype.card_fin]
    omega
  have hf : ∀ a ∈ (Finset.univ : Finset (Fin (S.length + 1))),
      (fun i : Fin (S.length + 1) => (g i.1).1) a ∈ S.toFinset :=
    fun a _ => List.mem_toFinset.mpr (g a.1).2
  obtain ⟨i, -, j, -, hij, heq⟩ :=
    Finset.exists_ne_map_eq_of_card_lt_of_maps_to hc hf
  have hij' : i.1 ≠ j.1 := fun hv => hij (Fin.val_injective hv)
  rcases lt_or_gt_of_ne hij' with h | h
  · have h2 := hmono i.1 j.1 h
    rw [← heq] at h2
    exact ⟨(g i.1).1, h2⟩
  · have h2 := hmono j.1 i.1 h
    rw [heq] at h2
    exact ⟨(g j.1).1, h2⟩

/-- When the batch's dependencies are closed, the graph is acyclic, and the
`completed` set holds exactly the scheduled ids, a nonempty remaining list
always contains a ready task. -/
theorem ready_exists (ts : List SubTask)
    (hclosed : ∀ t ∈ ts, ∀ d ∈ t.dependencies, d ∈ ts.map SubTask.id)
    (hacyc : Acyclic ts)
    (rem : List SubTask) (completed : List String)
    (hsub : List.Sublist rem ts)
    (hinv : ∀ d, d ∈ completed ↔
      d ∈ ts.map SubTask.id ∧ d ∉ rem.map SubTask.id)
    (hne : rem ≠ []) :
    rem.filter (readyPred completed) ≠ [] := by
  intro hF
  have hsucc : ∀ t ∈ rem, ∃ u, u ∈ rem ∧ dependsOn ts t u := by
    intro t ht
    have h1 : readyPred completed t = false := by
      have := List.filter_eq_nil_iff.mp hF t ht
      simpa using this
    have h2 : ∃ d, d ∈ t.dependencies ∧ ¬completed.contains d := by
      simpa [readyPred, List.all_eq_false] using h1
    obtain ⟨d, hd, hdc⟩ := h2
    have hdin : d ∉ completed := by
      intro hmem
      exact hdc (by simpa [List.contains, List.elem_iff] using hmem)
    have htts : t ∈ ts := hsub.subset ht
    have hdts : d ∈ ts.map SubTask.id := hclosed t htts d hd
    have hdrem : d ∈ rem.map SubTask.id := by
      by_contra hdr
      exact hdin ((hinv d).mpr ⟨hdts, hdr⟩)
    obtain ⟨u, hu, hid⟩ := List.mem_map.mp hdrem
    exact ⟨u, hu, htts, hsub.subset hu, hid ▸ hd⟩
  obtain ⟨t, ht⟩ := exists_cycle_of_forall_succ (dependsOn ts) rem hne hsucc
  exact hacyc t ht

/-- One scheduler iteration preserves the `completed`-set invariant: after
appending the ids of the ready subset, `completed` holds exactly the batch
ids that are no longer remaining. -/
theorem completed_invariant_step (ts : List SubTask)
    (hnodup : (ts.map SubTask.id).Nodup)
    (rem : List SubTask) (completed : List String) (p : SubTask → Bool)
    (hsub : List.Sublist rem ts)
    (hinv : ∀ d, d ∈ completed ↔
      d ∈ ts.map SubTask.id ∧ d ∉ rem.map SubTask.id)
    (ready : List SubTask) (hready : ready.Perm (rem.filter p)) :
    ∀ d, d ∈ completed ++ ready.map SubTask.id ↔
      d ∈ ts.map SubTask.id ∧
        d ∉ (rem.filter (fun a => !p a)).map SubTask.id := by
  intro d
  have hmem : d ∈ ready.map SubTask.id ↔
      d ∈ (rem.filter p).map SubTask.id := (hready.map SubTask.id).mem_iff
  have hremnodup : (rem.map SubTask.id).Nodup :=
    hnodup.sublist (hsub.map SubTask.id)
  rw [List.mem_append, hinv d, hmem]
  constructor
  · rintro (⟨hts, hnr⟩ | hfm)
    · refine ⟨hts, fun hc => hnr ?_⟩
      exact ((List.filter_sublist rem).map SubTask.id).subset hc
    · obtain ⟨w, hwf, hwid⟩ := List.mem_map.mp hfm
      have hw : w ∈ rem := List.mem_of_mem_filter hwf
      have hpw : p w = true := List.of_mem_filter hwf
      refine ⟨List.mem_map.mpr ⟨w, hsub.subset hw, hwid⟩, fun hc => ?_⟩
      obtain ⟨u, huf, huid⟩ := List.mem_map.mp hc
      have hu : u ∈ rem := List.mem_of_mem_filter huf
      have hpu := List.of_mem_filter huf
      have huw : u = w :=
        List.inj_on_of_nodup_map hremnodup hu hw (by rw [huid, hwid])
      rw [huw, hpw] at hpu
      simp at hpu
  · rintro ⟨hts, hnf⟩
    by_cases hdr : d ∈ rem.map SubTask.id
    · obtain ⟨w, hw, hwid⟩ := List.mem_map.mp hdr
      by_cases hpw : p w = true
      · exact Or.inr
          (List.mem_map.mpr ⟨w, List.mem_filter.mpr ⟨hw, hpw⟩, hwid⟩)
      · exfalso
        apply hnf
        refine List.mem_map.mpr ⟨w, List.mem_filter.mpr ⟨hw, ?_⟩, hwid⟩
        simp [Bool.eq_false_iff.mpr hpw]
    · exact Or.inl ⟨hts, hdr⟩

/-- The non-ready remainder of a step is strictly shorter than the step's
input (used to justify the iteration budget). -/
theorem filter_not_length_le (p : SubTask → Bool) (r0 : SubTask)
    (rest : List SubTask) (hF : (r0 :: rest).filter p ≠ []) :
    ((r0 :: rest).filter (fun a => !p a)).length ≤ rest.length := by
  have hfull :
      ((r0 :: rest).filter p).length +
        ((r0 :: rest).filter (fun a => !p a)).length =
      (r0 :: rest).length := by
    have := (List.filter_append_perm p (r0 :: rest)).length_eq
    simpa [List.length_append] using this
  have hpos : 0 < ((r0 :: rest).filter p).length := by
    cases hFe : (r0 :: rest).filter p with
    | nil => exact absurd hFe hF
    | cons x xs => simp [hFe]
  simp only [List.length_cons] at hfull
  omega

/-- Main scheduler invariant: on an acyclic, closed, id-unique batch, the
output of the loop never places a task before one of its dependencies
(each earlier task is not a dependency target of a later one). -/
theorem sortStep_pairwise (ts : List SubTask)
    (hnodup : (ts.map SubTask.id).Nodup)
    (hclosed : ∀ t ∈ ts, ∀ d ∈ t.dependencies, d ∈ ts.map SubTask.id)
    (hacyc : Acyclic ts) :
    ∀ (fuel : Nat) (rem : List SubTask) (completed : List String),
      rem.length ≤ fuel → List.Sublist rem ts →
      (∀ d, d ∈ completed ↔
        d ∈ ts.map SubTask.id ∧ d ∉ rem.map SubTask.id) →
      (sortStep fuel rem completed).Pairwise
        (fun a b => b.id ∉ a.dependencies) := by
  intro fuel
  induction fuel with
  | zero => intro rem completed _ _ _; simp [sortStep]
  | succ fuel ih =>
    intro rem completed hlen hsub hinv
    cases rem with
    | nil => simp [sortStep]
    | cons r0 rest =>
      have hFne : (r0 :: rest).filter (readyPred completed) ≠ [] :=
        ready_exists ts hclosed hacyc (r0 :: rest) completed hsub hinv
          (by simp)
      simp only [sortStep]
      rw [if_neg (by simp [List.isEmpty_iff, hFne])]
      rw [foldl_erase_sorted_filter]
      have hreadyperm :
          (List.insertionSort prioLE
            ((r0 :: rest).filter (readyPred completed))).Perm
            ((r0 :: rest).filter (readyPred completed)) :=
        List.perm_insertionSort _ _
      have hlen2 :
          ((r0 :: rest).filter
            (fun a => !readyPred completed a)).length ≤ fuel := by
        have := filter_not_length_le (readyPred completed) r0 rest hFne
        have hlen' : rest.length + 1 ≤ fuel + 1 := by
          simpa [List.length_cons] using hlen
        omega
      have hready_prop : ∀ a ∈ List.insertionSort prioLE
          ((r0 :: rest).filter (readyPred completed)),
          ∀ dep ∈ a.dependencies, dep ∈ completed := by
        intro a ha dep hdep
        have haf : a ∈ (r0 :: rest).filter (readyPred completed) :=
          hreadyperm.subset ha
        have hpa : readyPred completed a = true := List.of_mem_filter haf
        have hall := (List.all_eq_true.mp hpa) dep hdep
        simpa [List.contains, List.elem_iff] using hall
      have hnotin : ∀ b ∈ r0 :: rest, b.id ∉ completed := by
        intro b hb hbc
        exact ((hinv b.id).mp hbc).2 (List.mem_map.mpr ⟨b, hb, rfl⟩)
      apply List.pairwise_append.mpr
      refine ⟨?_, ?_, ?_⟩
      · apply List.pairwise_iff_get.mpr
        intro i j _
        intro hdep
        have hbmem : (List.insertionSort prioLE
            ((r0 :: rest).filter (readyPred completed))).get j ∈
            r0 :: rest :=
          List.mem_of_mem_filter (hreadyperm.subset (List.get_mem _ _ _))
        exact hnotin _ hbmem
          (hready_prop _ (List.get_mem _ _ _) _ hdep)
      · exact ih _ _ hlen2 ((List.filter_sublist _).trans hsub)
          (completed_invariant_step ts hnodup (r0 :: rest) completed
            (readyPred completed) hsub hinv _ hreadyperm)
      · intro a ha b hb
        have hbmem : b ∈ (r0 :: rest).filter
            (fun a => !readyPred completed a) :=
          (sortStep_perm fuel _ _ hlen2).subset hb
        intro hdep
        exact hnotin b (List.mem_of_mem_filter hbmem)
          (hready_prop a ha b.id hdep)

/-- The linear chain `chainC → chainB → chainA` is acyclic. -/
theorem chain_acyclic : Acyclic [chainC, chainB, chainA] := by
  apply acyclic_of_rank _
    (fun s => if s = "C" then 2 else if s = "B" then 1 else 0)
  intro a b h
  obtain ⟨ha, hb, hd⟩ := h
  fin_cases ha <;> fin_cases hb <;> revert hd <;> decide

/-- **C3.** For every batch with unique ids whose dependency graph is
acyclic and whose dependency ids all refer to tasks in the batch, the
sequential ordering places every sub-task strictly after all of its
dependencies (the task at position `j` whose id is a dependency of the task
at position `i` satisfies `j < i`), and the output is the concatenation of
the per-iteration ready subsets, each appended in ascending priority
order. -/
theorem sort_subtasks_by_dependencies_topological (ts : List SubTask)
    (hnodup : (ts.map SubTask.id).Nodup)
    (hclosed : ∀ t ∈ ts, ∀ d ∈ t.dependencies, d ∈ ts.map SubTask.id)
    (hacyc : Acyclic ts) :
    (∀ (i j : Nat) (hi : i < (sort_subtasks_by_dependencies ts).length)
        (hj : j < (sort_subtasks_by_dependencies ts).length),
        ((sort_subtasks_by_dependencies ts).get ⟨j, hj⟩).id ∈
          ((sort_subtasks_by_dependencies ts).get ⟨i, hi⟩).dependencies →
        j < i)
    ∧ sort_subtasks_by_dependencies ts =
        (sortBlocks ts.length ts []).flatten
    ∧ (∀ b ∈ sortBlocks ts.length ts [], b.Pairwise prioLE) := by
  have hinv0 : ∀ d, d ∈ ([] : List String) ↔
      d ∈ ts.map SubTask.id ∧ d ∉ ts.map SubTask.id := by
    intro d
    simp
  have hpw := sortStep_pairwise ts hnodup hclosed hacyc ts.length ts []
    (Nat.le_refl _) (List.Sublist.refl ts) hinv0
  have hperm := sortStep_perm ts.length ts [] (Nat.le_refl _)
  refine ⟨?_, (sortBlocks_join ts.length ts []).symm,
    sortBlocks_sorted ts.length ts []⟩
  intro i j hi hj hdep
  rcases lt_trichotomy j i with h | h | h
  · exact h
  · exfalso
    subst h
    have htmem : (sort_subtasks_by_dependencies ts).get ⟨j, hj⟩ ∈ ts :=
      hperm.subset (List.get_mem _ _ _)
    exact hacyc _ (Relation.TransGen.single ⟨htmem, htmem, hdep⟩)
  · exfalso
    exact List.pairwise_iff_get.mp hpw ⟨i, hi⟩ ⟨j, hj⟩ h hdep

/-- **C3, witness.** The topological-ordering theorem at the concrete
three-task chain, its hypotheses discharged. -/
theorem sort_subtasks_by_dependencies_topological_witness :
    (([chainC, chainB, chainA].map SubTask.id).Nodup
    ∧ (∀ t ∈ [chainC, chainB, chainA], ∀ d ∈ t.dependencies,
        d ∈ [chainC, chainB, chainA].map SubTask.id)
    ∧ Acyclic [chainC, chainB, chainA])
    ∧ ((∀ (i j : Nat)
        (hi : i < (sort_subtasks_by_dependencies
          [chainC, chainB, chainA]).length)
        (hj : j < (sort_subtasks_by_dependencies
          [chainC, chainB, chainA]).length),
        ((sort_subtasks_by_dependencies [chainC, chainB, chainA]).get
            ⟨j, hj⟩).id ∈
          ((sort_subtasks_by_dependencies [chainC, chainB, chainA]).get
            ⟨i, hi⟩).dependencies →
        j < i)
    ∧ sort_subtasks_by_dependencies [chainC, chainB, chainA] =
        (sortBlocks [chainC, chainB, chainA].length
          [chainC, chainB, chainA] []).flatten
    ∧ (∀ b ∈ sortBlocks [chainC, chainB, chainA].length
        [chainC, chainB, chainA] [], b.Pairwise prioLE)) :=
  ⟨⟨by decide, by decide, chain_acyclic⟩,
   sort_subtasks_by_dependencies_topological [chainC, chainB, chainA]
     (by decide) (by decide) chain_acyclic⟩

/-- **C4.** For every batch of sub-tasks — including batches with circular
dependencies or dependencies pointing outside the batch —
`_sort_subtasks_by_dependencies` terminates and returns an ordering
containing every input sub-task exactly once (a permutation of the batch);
in particular for the two-cycle `cycA ↔ cycB` it returns the full batch (by
forcibly taking the first remaining task). -/
theorem sort_subtasks_by_dependencies_perm (subtasks : List SubTask) :
    (sort_subtasks_by_dependencies subtasks).Perm subtasks
    ∧ sort_subtasks_by_dependencies [cycA, cycB] = [cycA, cycB] := by
  constructor
  · exact sortStep_perm subtasks.length subtasks [] (Nat.le_refl _)
  · decide

/-! ### Dependency-level lemmas -/

/-- When every in-batch dependency is already memoized, the dependency loop
of `_calculate_task_level` returns the running maximum of the memoized
levels and leaves the memo unchanged. -/
theorem calcDeps_memoized (fuel : Nat) (ts : List SubTask) :
    ∀ (deps : List String) (acc : Int) (memo : LevelMemo),
      (∀ d ∈ deps, (findTask ts d).isSome → (memo.lookup d).isSome) →
      calcDepsWith (fun t m => calc_task_level (fuel + 1) ts t m) ts deps
          acc memo =
        some (deps.foldl
          (fun acc d =>
            match findTask ts d, memo.lookup d with
            | some _, some l => max acc l
            | _, _ => acc) acc, memo) := by
  intro deps
  induction deps with
  | nil => intro acc memo _; rfl
  | cons d ds ih =>
    intro acc memo hmemo
    simp only [calcDepsWith, List.foldl_cons]
    cases hf : findTask ts d with
    | none =>
      simp only [hf]
      exact ih acc memo (fun d' hd' => hmemo d' (by simp [hd']))
    | some u =>
      have hl : (memo.lookup d).isSome := hmemo d (by simp) (by simp [hf])
      obtain ⟨l, hl⟩ := Option.isSome_iff_exists.mp hl
      have huid : u.id = d := by
        have := List.find?_some hf
        simpa using this
      have hcall : calc_task_level (fuel + 1) ts u memo = some (l, memo) := by
        simp [calc_task_level, huid, hl]
      simp only [hf, hcall, hl]
      exact ih (max acc l) memo (fun d' hd' => hmemo d' (by simp [hd']))

/-- One-step unfolding of `calc_task_level` at a successor budget. -/
theorem calc_task_level_succ (fuel : Nat) (ts : List SubTask) (t : SubTask)
    (memo : LevelMemo) :
    calc_task_level (fuel + 1) ts t memo =
      match memo.lookup t.id with
      | some level => some (level, memo)
      | none =>
        if t.dependencies.isEmpty then some (0, (t.id, 0) :: memo)
        else
          match calcDepsWith (fun t m => calc_task_level fuel ts t m) ts
              t.dependencies (-1) memo with
          | none => none
          | some (max_dep_level, memo') =>
            some (max_dep_level + 1, (t.id, max_dep_level + 1) :: memo') :=
  rfl

/-- **C7.** The dependency-level computation: for the linear chain
`A ← B ← C` the levels are `level(A)=0, level(B)=1, level(C)=2`; a task with
no dependencies (not yet memoized) is assigned level `0`; and a task whose
in-batch dependencies are all already computed is assigned
`1 + max(levels of its in-batch dependencies)` (maximum taken with base
`-1`, so dependencies pointing outside the batch are ignored). -/
theorem calculate_task_level_spec :
    ((analyze_dependency_levels [chainA, chainB, chainC]).map Prod.fst =
        some [(0, [chainA]), (1, [chainB]), (2, [chainC])]
      ∧ (analyze_dependency_levels [chainA, chainB, chainC]).bind
          (fun r => r.2.lookup "A") = some 0
      ∧ (analyze_dependency_levels [chainA, chainB, chainC]).bind
          (fun r => r.2.lookup "B") = some 1
      ∧ (analyze_dependency_levels [chainA, chainB, chainC]).bind
          (fun r => r.2.lookup "C") = some 2)
    ∧ (∀ (fuel : Nat) (ts : List SubTask) (t : SubTask) (memo : LevelMemo),
        memo.lookup t.id = none → t.dependencies = [] →
        calc_task_level (fuel + 1) ts t memo = some (0, (t.id, 0) :: memo))
    ∧ (∀ (fuel : Nat) (ts : List SubTask) (t : SubTask) (memo : LevelMemo),
        memo.lookup t.id = none → t.dependencies ≠ [] →
        (∀ d ∈ t.dependencies, (findTask ts d).isSome →
          (memo.lookup d).isSome) →
        calc_task_level (fuel + 2) ts t memo =
          some (maxInBatchDepLevel ts memo t.dependencies + 1,
            (t.id, maxInBatchDepLevel ts memo t.dependencies + 1) ::
              memo)) := by
  refine ⟨⟨by decide, by decide, by decide, by decide⟩, ?_, ?_⟩
  · intro fuel ts t memo hmemo hdeps
    simp [calc_task_level, hmemo, hdeps]
  · intro fuel ts t memo hmemo hne hdeps
    have hE : t.dependencies.isEmpty = false := by
      simpa [List.isEmpty_iff] using hne
    simp only [calc_task_level_succ (fuel + 1) ts t memo, hmemo]
    rw [if_neg (by simp [hE])]
    rw [calcDeps_memoized fuel ts t.dependencies (-1) memo hdeps]
    rfl

/-- **C7, witness.** The level-computation theorem applied at the chain's
tasks: `chainA` (no dependencies, fresh memo) gets level `0`; `chainC`
(dependency `"B"` memoized at level `1`) gets level `2`. -/
theorem calculate_task_level_spec_witness :
    (([] : LevelMemo).lookup chainA.id = none
    ∧ chainA.dependencies = []
    ∧ calc_task_level 1 [chainA, chainB, chainC] chainA [] =
        some (0, [("A", 0)]))
    ∧ (([("B", 1), ("A", 0)] : LevelMemo).lookup chainC.id = none
    ∧ calc_task_level 2 [chainA, chainB, chainC] chainC
        [("B", 1), ("A", 0)] =
        some (2, [("C", 2), ("B", 1), ("A", 0)])) :=
  ⟨⟨rfl, rfl,
    calculate_task_level_spec.2.1 0 [chainA, chainB, chainC] chainA []
      rfl rfl⟩,
   ⟨rfl,
    calculate_task_level_spec.2.2 0 [chainA, chainB, chainC] chainC
      [("B", 1), ("A", 0)] rfl (by decide) (by decide)⟩⟩

end TaskSplitter
